import Mathlib

/-!
Verification development for the `git-snap-fs` repository: a shallow
embedding, in Lean, of the read-only FUSE filesystem over a Git object
database (`src/fs.rs`, `src/inode.rs`, `src/repo.rs`), together with
theorems settling the specification claims about it.

Conventions of the embedding:
* machine integers (`u64`, `u32`, `u8`) are `Nat` with explicit `% 2^w`
  where the source could overflow or truncate;
* byte strings (`&[u8]`, `Vec<u8>`) are `List Nat`, each element a byte;
* fallible Rust code returning `io::Result` becomes `Except IOErr`;
* the `&self` methods of `GitSnapFs` that mutate the node cache through
  interior mutability become explicit state-passing on a state type `St`;
* the FUSE `add_entry` callback (whose return of `0` means "reply buffer
  full, stop") is modelled by a capacity counter: the callback accepts
  exactly the first `cap` entries offered to it;
* the two pieces of the program that live outside `src/` — Rust's
  `DefaultHasher` and the crate function `inode_from_oid` imported by
  `fs.rs` — are opaque to the claims and are passed in as the abstract
  environment `Env`; every theorem quantifies over them.
-/

namespace GitSnapFs

/-! ## Errno values and io::Error -/

/-- Linux errno EROFS (read-only filesystem). -/
def EROFS : Nat := 30

/-- Linux errno ENOENT. -/
def ENOENT : Nat := 2

/-- Linux errno EINVAL. -/
def EINVAL : Nat := 22

/-- Linux errno ENOTDIR. -/
def ENOTDIR : Nat := 20

/-- Linux errno ENOTSUP / EOPNOTSUPP. -/
def ENOTSUP : Nat := 95

/-- Linux access(2) W_OK bit. -/
def W_OK : Nat := 2

/-- An `io::Error` as the filesystem produces it: either a raw OS errno
(`io::Error::from_raw_os_error`) or a wrapped library error with no errno
(`io::Error::other`). -/
inductive IOErr where
  | raw (errno : Nat)
  | other
deriving DecidableEq

deriving instance DecidableEq for Except

/-! ## Inode codec (`src/inode.rs`) -/

/-- `InodeType`: type tags isolating inode namespaces per Git object kind.
The `synthetic` payload is a `u8`, embedded as a `Nat` reduced mod 256 by
`tag`. -/
inductive InodeType where
  | blob
  | tree
  | commit
  | symlink
  | synthetic (value : Nat)
deriving DecidableEq

/-- `InodeType::tag`. -/
def InodeType.tag : InodeType → Nat
  | .blob => 0
  | .tree => 1
  | .commit => 2
  | .symlink => 3
  | .synthetic value => value % 256

/-- `InodeType::from_tag` (argument is a `u8`, embedded mod 256). -/
def InodeType.from_tag (t : Nat) : InodeType :=
  match t % 256 with
  | 0 => .blob
  | 1 => .tree
  | 2 => .commit
  | 3 => .symlink
  | other => .synthetic other

/-- `u64::from_be_bytes`: big-endian byte list to integer.  Each byte is
reduced mod 256 (the Rust bytes are `u8` by type). -/
def beBytes : List Nat → Nat
  | [] => 0
  | b :: rest => (b % 256) * 256 ^ rest.length + beBytes rest

/-- `InodeTable::ino_for`: the inode codec of `src/inode.rs`.  The source
takes `&bytes[bytes.len() - 8..]` — the trailing eight bytes of the object
id — reads them big-endian, masks to the low 60 bits
(`LOW_60_MASK = (1 << 60) - 1`), and ORs in `(kind.tag() as u64) << 60`
(the `u64` shift truncates the tag to its low four bits). -/
def ino_for (oid : List Nat) (kind : InodeType) : Nat :=
  let buf := oid.drop (oid.length - 8)
  let low := beBytes buf &&& (2 ^ 60 - 1)
  low ||| ((kind.tag <<< 60) % 2 ^ 64)

/-- The inode codec as the spec words it (for the refinement comparison in
claim C3): "take the leading eight bytes of the object id, interpret
big-endian as a 64-bit integer, clear the top four bits, and OR in a
four-bit kind tag". -/
def ino_for_spec_leading (oid : List Nat) (kind : InodeType) : Nat :=
  let low := beBytes (oid.take 8) &&& (2 ^ 60 - 1)
  low ||| ((kind.tag <<< 60) % 2 ^ 64)

/-! ## Synthetic symlink inodes (`src/fs.rs`, `synthetic_inode`) -/

/-- Reserved inode of `/`. -/
def ROOT_ID : Nat := 1

/-- Reserved inode of `/commits`. -/
def INODE_COMMITS : Nat := 2

/-- Reserved inode of `/branches`. -/
def INODE_BRANCHES : Nat := 3

/-- Reserved inode of `/tags`. -/
def INODE_TAGS : Nat := 4

/-- Reserved inode of `/HEAD`. -/
def INODE_HEAD : Nat := 5

/-- Namespace byte for branch symlinks. -/
def NAMESPACE_BRANCH : Nat := 1

/-- Namespace byte for tag symlinks. -/
def NAMESPACE_TAG : Nat := 2

/-- `synthetic_inode(namespace, name)` from `src/fs.rs`.  The source feeds
the namespace byte and then the name bytes to `DefaultHasher` and computes
`(u64::from(namespace) << 56) | (hash & 0x00FF_FFFF_FFFF_FFFF)`.  The
hasher is not part of `src/`; it is modelled by the abstract 64-bit hash
function `H` over the hashed pair, so every theorem holds for the real
hasher as a special case. -/
def synthetic_inode (H : Nat → List Nat → Nat) (ns : Nat) (name : List Nat) : Nat :=
  ((ns % 256) <<< 56) ||| (H ns name &&& 0x00FFFFFFFFFFFFFF)

/-! ## Byte-string helpers -/

/-- ASCII bytes of a Lean string literal (used only for ASCII constants of
the source such as `"commits"` and `"../commits/"`). -/
def strBytes (s : String) : List Nat := s.toList.map Char.toNat

/-- Lowercase hex digit of a value below 16, as an ASCII byte. -/
def hexDigit (n : Nat) : Nat := if n < 10 then 48 + n else 87 + n

/-- Two lowercase hex digits of one byte. -/
def hexByte (b : Nat) : List Nat := [hexDigit (b % 256 / 16), hexDigit (b % 16)]

/-- `Display` of a `gix::ObjectId`: the full lowercase hex of its bytes. -/
def hexOid (oid : List Nat) : List Nat := (oid.map hexByte).flatten

/-- `format!("../commits/{}", id)` — the symlink target used for `HEAD`
and for the branch/tag symlinks. -/
def targetFor (oid : List Nat) : List Nat := strBytes "../commits/" ++ hexOid oid

/-- One UTF-8 continuation byte (`0x80..=0xBF`). -/
def contByte (b : Nat) : Bool := 0x80 ≤ b && b ≤ 0xBF

/-- `str::from_utf8(name).is_ok()`: strict UTF-8 validity of a byte string
(RFC 3629 ranges, surrogates and over-long forms rejected), as Rust's
`str::from_utf8` checks it. -/
def validUtf8 : List Nat → Bool
  | [] => true
  | b :: rest =>
    if b ≤ 0x7F then validUtf8 rest
    else if 0xC2 ≤ b && b ≤ 0xDF then
      match rest with
      | c1 :: r => contByte c1 && validUtf8 r
      | [] => false
    else if b = 0xE0 then
      match rest with
      | c1 :: c2 :: r => (0xA0 ≤ c1 && c1 ≤ 0xBF) && contByte c2 && validUtf8 r
      | _ => false
    else if (0xE1 ≤ b && b ≤ 0xEC) || b = 0xEE || b = 0xEF then
      match rest with
      | c1 :: c2 :: r => contByte c1 && contByte c2 && validUtf8 r
      | _ => false
    else if b = 0xED then
      match rest with
      | c1 :: c2 :: r => (0x80 ≤ c1 && c1 ≤ 0x9F) && contByte c2 && validUtf8 r
      | _ => false
    else if b = 0xF0 then
      match rest with
      | c1 :: c2 :: c3 :: r =>
        (0x90 ≤ c1 && c1 ≤ 0xBF) && contByte c2 && contByte c3 && validUtf8 r
      | _ => false
    else if 0xF1 ≤ b && b ≤ 0xF3 then
      match rest with
      | c1 :: c2 :: c3 :: r => contByte c1 && contByte c2 && contByte c3 && validUtf8 r
      | _ => false
    else if b = 0xF4 then
      match rest with
      | c1 :: c2 :: c3 :: r =>
        (0x80 ≤ c1 && c1 ≤ 0x8F) && contByte c2 && contByte c3 && validUtf8 r
      | _ => false
    else false

/-! ## Repository façade (`src/repo.rs`) -/

/-- One entry of a Git tree, as `gix` iterates it: filename bytes, entry
mode kind, and object id. -/
inductive EntryKind where
  | tree
  | blob
  | blobExecutable
  | link
  | commit
deriving DecidableEq

/-- A Git tree entry (filename bytes, mode kind, object id bytes). -/
structure TreeEntry where
  name : List Nat
  mode : EntryKind
  oid : List Nat
deriving DecidableEq

/-- The repository façade of `src/repo.rs`, abstracted over the `gix`
object database it wraps:

* `headCommit` — the peeled commit id `resolve_head` arrives at (`none`
  when HEAD is unborn or peeling fails);
* `branches` / `tags` — the sorted `(short-name bytes, peeled commit id)`
  pairs returned by `list_branches` / `list_tags`;
* `revParse` — `gix`'s `rev_parse_single` over the name string's bytes;
* `commits` — the object database's commits: id ↦ (root tree id,
  committer time in seconds);
* `trees` — id ↦ tree entries in native order;
* `blobs` — id ↦ blob contents. -/
structure Repo where
  headCommit : Option (List Nat)
  branches : List (List Nat × List Nat)
  tags : List (List Nat × List Nat)
  revParse : List Nat → Option (List Nat)
  commits : List (List Nat × (List Nat × Int))
  trees : List (List Nat × List TreeEntry)
  blobs : List (List Nat × List Nat)

/-! ## Filesystem nodes and state (`src/fs.rs`) -/

/-- `CommitMeta`: commit id, root tree id, committer time. -/
structure CommitMeta where
  id : List Nat
  tree : List Nat
  time : Int
deriving DecidableEq

/-- `NodeKind` from `src/fs.rs`. -/
inductive NodeKind where
  | commit (meta : CommitMeta)
  | tree (meta : CommitMeta) (tree : List Nat)
  | blob (meta : CommitMeta) (oid : List Nat) (executable : Bool) (size : Nat)
  | symlink (meta : CommitMeta) (target : List Nat)
  | submodule (meta : CommitMeta) (oid : List Nat)
  | syntheticSymlink (target : List Nat) (time : Int)
deriving DecidableEq

/-- `Node`: a materialized filesystem node. -/
structure Node where
  inode : Nat
  parent : Option Nat
  kind : NodeKind
deriving DecidableEq

/-- The mutable state of a `GitSnapFs` value: the repository handle, the
mount start time, and the materialized-node cache (`RwLock<HashMap>`,
modelled as an association list updated by `insertNode`). -/
structure St where
  repo : Repo
  startTime : Int
  nodes : List (Nat × Node)

/-- `HashMap::insert`: replace any binding of the key and add the new
one. -/
def insertNode (l : List (Nat × Node)) (k : Nat) (v : Node) : List (Nat × Node) :=
  (k, v) :: l.filter (fun p => p.1 ≠ k)

/-- The parts of the program outside `src/`, abstracted: the
`DefaultHasher` behind `synthetic_inode`, and `crate::inode::inode_from_oid`
(imported by `src/fs.rs` but not defined under `src/`). -/
structure Env where
  hashFn : Nat → List Nat → Nat
  inodeFromOid : List Nat → Nat

/-! ## Attribute builders (`src/fs.rs`) -/

/-- S_IFDIR. -/
def S_IFDIR : Nat := 0x4000

/-- S_IFREG. -/
def S_IFREG : Nat := 0x8000

/-- S_IFLNK. -/
def S_IFLNK : Nat := 0xA000

/-- `S_IFDIR | 0o755`, used for the root and all directories. -/
def DIRECTORY_ATTR_MODE : Nat := S_IFDIR ||| 0o755

/-- `S_IFLNK | 0o777`. -/
def SYMLINK_ATTR_MODE : Nat := S_IFLNK ||| 0o777

/-- The fields of the kernel `stat64` record that the program populates
(uid and gid are always zero, blksize always 4096, blocks always zero, and
the three timestamps coincide, so one `time` field represents them). -/
structure Stat where
  ino : Nat
  mode : Nat
  nlink : Nat
  size : Nat
  time : Int
deriving DecidableEq

/-- `build_dir_attr`. -/
def build_dir_attr (inode mode : Nat) (time : Int) : Stat :=
  { ino := inode, mode := mode, nlink := 2, size := 0, time := time }

/-- `build_file_attr`. -/
def build_file_attr (inode mode size : Nat) (time : Int) : Stat :=
  { ino := inode, mode := mode, nlink := 1, size := size, time := time }

/-- `build_symlink_attr`. -/
def build_symlink_attr (inode mode : Nat) (time : Int) (size : Nat) : Stat :=
  { ino := inode, mode := mode, nlink := 1, size := size, time := time }

/-- A FUSE `Entry` reply (generation, ttl fields are constants in the
source and carry no information). -/
structure Entry where
  inode : Nat
  attr : Stat
deriving DecidableEq

/-! ## Repository operations (`src/repo.rs`) -/

/-- `Repository::resolve_full_commit_id`: `rev_parse_single` then
`find_commit`; both failures surface as wrapped errors
(`io::Error::other` at the call site). -/
def resolve_full_commit_id (r : Repo) (name : List Nat) : Except IOErr (List Nat) :=
  match r.revParse name with
  | none => .error .other
  | some id =>
    match r.commits.lookup id with
    | some _ => .ok id
    | none => .error .other

/-- `Repository::resolve_head`: peel HEAD to a commit id and check the
commit exists; failures are wrapped errors. -/
def resolve_head (r : Repo) : Except IOErr (List Nat) :=
  match r.headCommit with
  | none => .error .other
  | some id =>
    match r.commits.lookup id with
    | some _ => .ok id
    | none => .error .other

/-! ## Node materialization and lookup (`src/fs.rs`) -/

/-- `GitSnapFs::ensure_commit_node`: return the cached commit node for
`inode_from_oid(commit_id)` when one is cached with commit kind; otherwise
fetch the commit from the repository, build its `CommitMeta`, insert a
commit node (parent = `commits/`), and return it. -/
def ensure_commit_node (env : Env) (st : St) (commitId : List Nat) :
    Except IOErr (CommitMeta × Nat × St) :=
  let inode := env.inodeFromOid commitId
  let cached : Option CommitMeta :=
    match st.nodes.lookup inode with
    | some existing =>
      match existing.kind with
      | .commit meta => some meta
      | _ => none
    | none => none
  match cached with
  | some meta => .ok (meta, inode, st)
  | none =>
    match st.repo.commits.lookup commitId with
    | none => .error .other
    | some (treeId, time) =>
      let meta : CommitMeta := { id := commitId, tree := treeId, time := time }
      let node : Node := { inode := inode, parent := some INODE_COMMITS, kind := .commit meta }
      .ok (meta, inode, { st with nodes := insertNode st.nodes inode node })

/-- `GitSnapFs::node_for_inode`: pure lookup in the materialized-node
cache; an inode that is not cached yields ENOENT. -/
def node_for_inode (st : St) (inode : Nat) : Except IOErr Node :=
  match st.nodes.lookup inode with
  | some node => .ok node
  | none => .error (.raw ENOENT)

/-- `GitSnapFs::attr_for_node`. -/
def attr_for_node (node : Node) : Stat :=
  match node.kind with
  | .commit meta => build_dir_attr node.inode DIRECTORY_ATTR_MODE meta.time
  | .tree meta _ => build_dir_attr node.inode DIRECTORY_ATTR_MODE meta.time
  | .submodule meta _ => build_dir_attr node.inode DIRECTORY_ATTR_MODE meta.time
  | .blob meta _ executable size =>
    build_file_attr node.inode
      (if executable then S_IFREG ||| 0o555 else S_IFREG ||| 0o444) size meta.time
  | .symlink meta target =>
    build_symlink_attr node.inode SYMLINK_ATTR_MODE meta.time target.length
  | .syntheticSymlink target time =>
    build_symlink_attr node.inode SYMLINK_ATTR_MODE time target.length

/-- `GitSnapFs::lookup_commit`: UTF-8-check the name (failure is ENOENT),
resolve it to a full commit id (failure is a wrapped error, not ENOENT),
ensure the commit node, and reply with a directory entry. -/
def lookup_commit (env : Env) (st : St) (name : List Nat) : Except IOErr (Entry × St) :=
  if validUtf8 name then
    match resolve_full_commit_id st.repo name with
    | .error e => .error e
    | .ok commitId =>
      match ensure_commit_node env st commitId with
      | .error e => .error e
      | .ok (meta, inode, st1) =>
        .ok ({ inode := inode, attr := build_dir_attr inode DIRECTORY_ATTR_MODE meta.time }, st1)
  else .error (.raw ENOENT)

/-- `GitSnapFs::lookup_reference_symlink`: find the named ref among the
peeled refs (ENOENT when absent or the name is not UTF-8), ensure the
commit node, record a synthetic-symlink node with target
`../commits/<hex>`, and reply with a symlink entry. -/
def lookup_reference_symlink (env : Env) (st : St) (name : List Nat) (ns : Nat)
    (refs : List (List Nat × List Nat)) (parent : Nat) : Except IOErr (Entry × St) :=
  if validUtf8 name then
    match refs.find? (fun r => r.1 == name) with
    | none => .error (.raw ENOENT)
    | some (_, commitId) =>
      match ensure_commit_node env st commitId with
      | .error e => .error e
      | .ok (meta, _, st1) =>
        let target := targetFor meta.id
        let inode := synthetic_inode env.hashFn ns name
        let node : Node := { inode := inode, parent := some parent,
                             kind := .syntheticSymlink target meta.time }
        let st2 := { st1 with nodes := insertNode st1.nodes inode node }
        .ok ({ inode := inode,
               attr := build_symlink_attr inode SYMLINK_ATTR_MODE meta.time target.length }, st2)
  else .error (.raw ENOENT)

/-- `GitSnapFs::head_metadata`: re-resolve HEAD, ensure its commit node,
and return the metadata with the target `../commits/<hex>`. -/
def head_metadata (env : Env) (st : St) : Except IOErr (CommitMeta × List Nat × St) :=
  match resolve_head st.repo with
  | .error e => .error e
  | .ok commitId =>
    match ensure_commit_node env st commitId with
    | .error e => .error e
    | .ok (meta, _, st1) => .ok (meta, targetFor meta.id, st1)

/-- `GitSnapFs::head_entry`. -/
def head_entry (env : Env) (st : St) : Except IOErr (Entry × St) :=
  match head_metadata env st with
  | .error e => .error e
  | .ok (meta, target, st1) =>
    .ok ({ inode := INODE_HEAD,
           attr := build_symlink_attr INODE_HEAD SYMLINK_ATTR_MODE meta.time target.length }, st1)

/-- `GitSnapFs::special_dir_entry`. -/
def special_dir_entry (st : St) (inode : Nat) : Entry :=
  { inode := inode, attr := build_dir_attr inode DIRECTORY_ATTR_MODE st.startTime }

/-- The directory resolution of `materialize_tree_child`: commit and tree
nodes resolve to their tree id, everything else is not a directory. -/
def dirTreeOf : NodeKind → Option (CommitMeta × List Nat)
  | .commit meta => some (meta, meta.tree)
  | .tree meta t => some (meta, t)
  | _ => none

/-- `GitSnapFs::materialize_tree_child`: resolve the parent node to a tree
id (ENOTDIR for non-directories), scan that tree for a byte-exact filename
match (ENOENT when absent), and return the cached child node or build,
cache, and return a fresh one according to the entry's mode. -/
def materialize_tree_child (env : Env) (st : St) (parent : Node) (name : List Nat) :
    Except IOErr (Node × Stat × St) :=
  match dirTreeOf parent.kind with
  | none => .error (.raw ENOTDIR)
  | some (meta, treeId) =>
    match st.repo.trees.lookup treeId with
    | none => .error .other
    | some entries =>
      match entries.find? (fun e => e.name == name) with
      | none => .error (.raw ENOENT)
      | some entry =>
        let childInode := env.inodeFromOid entry.oid
        match st.nodes.lookup childInode with
        | some existing => .ok (existing, attr_for_node existing, st)
        | none =>
          match entry.mode with
          | .tree =>
            let node : Node := { inode := childInode, parent := some parent.inode,
                                 kind := .tree meta entry.oid }
            .ok (node, build_dir_attr childInode DIRECTORY_ATTR_MODE meta.time,
                 { st with nodes := insertNode st.nodes childInode node })
          | .blob =>
            match st.repo.blobs.lookup entry.oid with
            | none => .error .other
            | some data =>
              let node : Node := { inode := childInode, parent := some parent.inode,
                                   kind := .blob meta entry.oid false data.length }
              .ok (node, build_file_attr childInode (S_IFREG ||| 0o444) data.length meta.time,
                   { st with nodes := insertNode st.nodes childInode node })
          | .blobExecutable =>
            match st.repo.blobs.lookup entry.oid with
            | none => .error .other
            | some data =>
              let node : Node := { inode := childInode, parent := some parent.inode,
                                   kind := .blob meta entry.oid true data.length }
              .ok (node, build_file_attr childInode (S_IFREG ||| 0o555) data.length meta.time,
                   { st with nodes := insertNode st.nodes childInode node })
          | .link =>
            match st.repo.blobs.lookup entry.oid with
            | none => .error .other
            | some data =>
              let node : Node := { inode := childInode, parent := some parent.inode,
                                   kind := .symlink meta data }
              .ok (node, build_symlink_attr childInode SYMLINK_ATTR_MODE meta.time data.length,
                   { st with nodes := insertNode st.nodes childInode node })
          | .commit =>
            let node : Node := { inode := childInode, parent := some parent.inode,
                                 kind := .submodule meta entry.oid }
            .ok (node, build_dir_attr childInode DIRECTORY_ATTR_MODE meta.time,
                 { st with nodes := insertNode st.nodes childInode node })

/-! ## The FileSystem operations (`impl FileSystem for GitSnapFs`) -/

/-- `GitSnapFs::lookup`. -/
def lookup (env : Env) (st : St) (parent : Nat) (name : List Nat) :
    Except IOErr (Entry × St) :=
  if parent = ROOT_ID then
    if name = strBytes "commits" then .ok (special_dir_entry st INODE_COMMITS, st)
    else if name = strBytes "branches" then .ok (special_dir_entry st INODE_BRANCHES, st)
    else if name = strBytes "tags" then .ok (special_dir_entry st INODE_TAGS, st)
    else if name = strBytes "HEAD" then head_entry env st
    else .error (.raw ENOENT)
  else if parent = INODE_COMMITS then lookup_commit env st name
  else if parent = INODE_BRANCHES then
    lookup_reference_symlink env st name NAMESPACE_BRANCH st.repo.branches INODE_BRANCHES
  else if parent = INODE_TAGS then
    lookup_reference_symlink env st name NAMESPACE_TAG st.repo.tags INODE_TAGS
  else
    match node_for_inode st parent with
    | .error e => .error e
    | .ok parentNode =>
      match materialize_tree_child env st parentNode name with
      | .error e => .error e
      | .ok (node, attr, st1) => .ok ({ inode := node.inode, attr := attr }, st1)

/-- `GitSnapFs::readlink`. -/
def readlink (env : Env) (st : St) (inode : Nat) : Except IOErr (List Nat × St) :=
  if inode = INODE_HEAD then
    match head_metadata env st with
    | .error e => .error e
    | .ok (_, target, st1) => .ok (target, st1)
  else
    match node_for_inode st inode with
    | .error e => .error e
    | .ok node =>
      match node.kind with
      | .symlink _ target => .ok (target, st)
      | .submodule _ _ => .error (.raw EINVAL)
      | .syntheticSymlink target _ => .ok (target, st)
      | _ => .error (.raw EINVAL)

/-- `GitSnapFs::read`: defined only for blob nodes; fetches the blob and
writes `data[offset .. min(offset+size, len)]` to the reply writer,
returning those bytes (the Rust return value is their count). -/
def read (st : St) (inode : Nat) (size : Nat) (offset : Nat) :
    Except IOErr (List Nat) :=
  match node_for_inode st inode with
  | .error e => .error e
  | .ok node =>
    match node.kind with
    | .blob _ oid _ _ =>
      match st.repo.blobs.lookup oid with
      | none => .error .other
      | some data =>
        if offset ≥ data.length then .ok []
        else .ok (List.take (min (offset + size) data.length - offset) (List.drop offset data))
    | _ => .error (.raw EINVAL)

/-- `GitSnapFs::setattr` — unconditionally EROFS. -/
def setattr (_inode : Nat) (_attr : Stat) : Except IOErr Stat := .error (.raw EROFS)

/-- `GitSnapFs::symlink` — unconditionally EROFS. -/
def symlink (_linkname : List Nat) (_parent : Nat) (_name : List Nat) : Except IOErr Entry :=
  .error (.raw EROFS)

/-- `GitSnapFs::mknod` — unconditionally EROFS. -/
def mknod (_inode : Nat) (_name : List Nat) (_mode _rdev _umask : Nat) : Except IOErr Entry :=
  .error (.raw EROFS)

/-- `GitSnapFs::mkdir` — unconditionally EROFS. -/
def mkdir (_parent : Nat) (_name : List Nat) (_mode _umask : Nat) : Except IOErr Entry :=
  .error (.raw EROFS)

/-- `GitSnapFs::unlink` — unconditionally EROFS. -/
def unlink (_parent : Nat) (_name : List Nat) : Except IOErr Unit := .error (.raw EROFS)

/-- `GitSnapFs::rmdir` — unconditionally EROFS. -/
def rmdir (_parent : Nat) (_name : List Nat) : Except IOErr Unit := .error (.raw EROFS)

/-- `GitSnapFs::rename` — unconditionally EROFS. -/
def rename (_olddir : Nat) (_oldname : List Nat) (_newdir : Nat) (_newname : List Nat)
    (_flags : Nat) : Except IOErr Unit := .error (.raw EROFS)

/-- `GitSnapFs::link` — unconditionally EROFS. -/
def link (_inode _newparent : Nat) (_newname : List Nat) : Except IOErr Entry :=
  .error (.raw EROFS)

/-- `GitSnapFs::create` — unconditionally EROFS. -/
def create (_parent : Nat) (_name : List Nat) : Except IOErr Entry := .error (.raw EROFS)

/-- `GitSnapFs::write` — unconditionally EROFS. -/
def write (_inode : Nat) (_data : List Nat) (_offset : Nat) : Except IOErr Nat :=
  .error (.raw EROFS)

/-- `GitSnapFs::fallocate` — unconditionally EROFS. -/
def fallocate (_inode _mode _offset _length : Nat) : Except IOErr Unit := .error (.raw EROFS)

/-- `GitSnapFs::access`: the `u32` mask is first converted with
`i32::try_from` (EINVAL when it exceeds `i32::MAX`); then a mask containing
`W_OK` yields EROFS and anything else succeeds. -/
def access (_inode : Nat) (mask : Nat) : Except IOErr Unit :=
  if mask < 2 ^ 31 then
    if mask &&& W_OK ≠ 0 then .error (.raw EROFS) else .ok ()
  else .error (.raw EINVAL)

/-! ## Directory-listing engine (`src/fs.rs` readdir family)

All four readdir bodies of the source share one shape: emit `.` when the
kernel offset is 0 (with DirEntry offset 1), then `..` when the offset is
at most 1 (with DirEntry offset 2), then walk the indexed payload,
skipping entries whose `entry_offset = index + 3` is below the requested
offset and emitting the rest with DirEntry offset `entry_offset + 1`,
stopping when the add-entry callback reports a full buffer. -/

/-- A `DirEntry` reply record: inode, cursor offset, dtype, name bytes. -/
structure DirEnt where
  ino : Nat
  off : Nat
  typ : Nat
  name : List Nat
deriving DecidableEq

/-- libc DT_DIR. -/
def DT_DIR : Nat := 4

/-- libc DT_REG. -/
def DT_REG : Nat := 8

/-- libc DT_LNK. -/
def DT_LNK : Nat := 10

/-- The `.` record (DirEntry offset 1). -/
def dotEntry (selfIno : Nat) : DirEnt := ⟨selfIno, 1, DT_DIR, strBytes "."⟩

/-- The `..` record (DirEntry offset 2). -/
def dotdotEntry (parentIno : Nat) : DirEnt := ⟨parentIno, 2, DT_DIR, strBytes ".."⟩

/-- Attach `entry_offset`s `j, j+1, …` to payload descriptions
`(inode, dtype, name)`, producing the records with DirEntry offset
`entry_offset + 1`. -/
def payloadFrom (j : Nat) : List (Nat × Nat × List Nat) → List (Nat × DirEnt)
  | [] => []
  | (ino, typ, nm) :: rest => (j, ⟨ino, j + 1, typ, nm⟩) :: payloadFrom (j + 1) rest

/-- Payload records with `entry_offset`s starting at 3, as every readdir
body of the source enumerates them. -/
def mkPayload (xs : List (Nat × Nat × List Nat)) : List (Nat × DirEnt) := payloadFrom 3 xs

/-- The indexed emission loop shared by the readdir bodies: skip while
`offset > entry_offset`, then emit until the buffer capacity runs out. -/
def emitPayload : List (Nat × DirEnt) → Nat → Nat → List DirEnt
  | [], _, _ => []
  | (eoff, e) :: rest, offset, cap =>
    if eoff < offset then emitPayload rest offset cap
    else
      match cap with
      | 0 => []
      | c + 1 => e :: emitPayload rest offset c

/-- The `..` stage of the shared listing shape. -/
def listingTail (parentIno : Nat) (payload : List (Nat × DirEnt)) (offset cap : Nat) :
    List DirEnt :=
  if offset = 1 then
    match cap with
    | 0 => []
    | c + 1 => dotdotEntry parentIno :: emitPayload payload 2 c
  else emitPayload payload offset cap

/-- The full listing shape: `.` stage, `..` stage, payload loop. -/
def listingGo (selfIno parentIno : Nat) (payload : List (Nat × DirEnt)) (offset cap : Nat) :
    List DirEnt :=
  if offset = 0 then
    match cap with
    | 0 => []
    | c + 1 => dotEntry selfIno :: listingTail parentIno payload 1 c
  else listingTail parentIno payload offset cap

/-- The single-call listing of a directory: `.`, `..`, then the payload
records. -/
def dirRecords (selfIno parentIno : Nat) (xs : List (Nat × Nat × List Nat)) : List DirEnt :=
  dotEntry selfIno :: dotdotEntry parentIno :: (mkPayload xs).map Prod.snd

/-- A sequence of readdir calls that chain their offsets: each call passes
the DirEntry offset of the last record the previous call emitted, with the
reply-buffer capacities given by `caps`. -/
def chainCalls (selfIno parentIno : Nat) (xs : List (Nat × Nat × List Nat)) (offset : Nat) :
    List Nat → List DirEnt
  | [] => []
  | c :: cs =>
    let out := listingGo selfIno parentIno (mkPayload xs) offset c
    out ++ (match out.getLast? with
      | some e => chainCalls selfIno parentIno xs e.off cs
      | none => [])

/-- The four fixed records of the root directory. -/
def rootEntries : List (Nat × Nat × List Nat) :=
  [(INODE_COMMITS, DT_DIR, strBytes "commits"),
   (INODE_BRANCHES, DT_DIR, strBytes "branches"),
   (INODE_TAGS, DT_DIR, strBytes "tags"),
   (INODE_HEAD, DT_LNK, strBytes "HEAD")]

/-- `readdir_root` from `src/fs.rs` (both `.` and `..` carry the root
inode). -/
def readdir_root (offset cap : Nat) : List DirEnt :=
  listingGo ROOT_ID ROOT_ID (mkPayload rootEntries) offset cap

/-- `Ord::cmp` on byte vectors: strict lexicographic order. -/
def byteLt : List Nat → List Nat → Bool
  | _, [] => false
  | [], _ :: _ => true
  | a :: as_, b :: bs => if a < b then true else if b < a then false else byteLt as_ bs

/-- Insertion into a `byteLt`-ascending list (first components). -/
def insertSorted (x : List Nat × Nat) : List (List Nat × Nat) → List (List Nat × Nat)
  | [] => [x]
  | y :: ys => if byteLt y.1 x.1 then y :: insertSorted x ys else x :: y :: ys

/-- `sort_by(|a, b| a.0.cmp(&b.0))`: sort by the byte-string key. -/
def sortByName : List (List Nat × Nat) → List (List Nat × Nat)
  | [] => []
  | x :: xs => insertSorted x (sortByName xs)

/-- The payload `readdir_commits` computes: every materialized commit node
as `(full-hex name, inode)`, sorted by name. -/
def commitListing (st : St) : List (List Nat × Nat) :=
  sortByName (st.nodes.filterMap (fun p =>
    match p.2.kind with
    | .commit meta => some (hexOid meta.id, p.2.inode)
    | _ => none))

/-- `GitSnapFs::readdir_commits`: emits `.`, `..`, and one directory
record per materialized commit node, sorted by hex name.  It reads the
node cache but never mutates it and never fails. -/
def readdir_commits (st : St) (offset cap : Nat) : List DirEnt :=
  listingGo INODE_COMMITS ROOT_ID
    (mkPayload ((commitListing st).map (fun p => (p.2, DT_DIR, p.1)))) offset cap

/-- Attach `entry_offset`s to the peeled refs of a refs directory. -/
def withOffsets (j : Nat) : List (List Nat × List Nat) → List (Nat × List Nat × List Nat)
  | [] => []
  | (name, cid) :: rest => (j, name, cid) :: withOffsets (j + 1) rest

/-- The payload loop of `readdir_refs`: for each emitted ref, ensure the
commit node, record the synthetic symlink node, then offer the record to
the callback. -/
def readdirRefsLoop (env : Env) (dirIno ns : Nat) :
    List (Nat × List Nat × List Nat) → Nat → Nat → St → Except IOErr (List DirEnt × St)
  | [], _, _, st => .ok ([], st)
  | (eoff, name, commitId) :: rest, offset, cap, st =>
    if eoff < offset then readdirRefsLoop env dirIno ns rest offset cap st
    else
      match ensure_commit_node env st commitId with
      | .error e => .error e
      | .ok (meta, _, st1) =>
        let target := targetFor meta.id
        let inode := synthetic_inode env.hashFn ns name
        let node : Node := { inode := inode, parent := some dirIno,
                             kind := .syntheticSymlink target meta.time }
        let st2 := { st1 with nodes := insertNode st1.nodes inode node }
        match cap with
        | 0 => .ok ([], st2)
        | c + 1 =>
          match readdirRefsLoop env dirIno ns rest offset c st2 with
          | .error e => .error e
          | .ok (es, st3) => .ok (⟨inode, eoff + 1, DT_LNK, name⟩ :: es, st3)

/-- The `..` stage of `readdir_refs` (its `..` carries the root inode). -/
def readdirRefsTail (env : Env) (st : St) (dirIno ns : Nat)
    (refs : List (List Nat × List Nat)) (offset cap : Nat) : Except IOErr (List DirEnt × St) :=
  if offset = 1 then
    match cap with
    | 0 => .ok ([], st)
    | c + 1 =>
      match readdirRefsLoop env dirIno ns (withOffsets 3 refs) 2 c st with
      | .error e => .error e
      | .ok (es, st1) => .ok (dotdotEntry ROOT_ID :: es, st1)
  else readdirRefsLoop env dirIno ns (withOffsets 3 refs) offset cap st

/-- `GitSnapFs::readdir_refs`. -/
def readdir_refs (env : Env) (st : St) (dirIno : Nat) (offset : Nat)
    (refs : List (List Nat × List Nat)) (ns : Nat) (cap : Nat) :
    Except IOErr (List DirEnt × St) :=
  if offset = 0 then
    match cap with
    | 0 => .ok ([], st)
    | c + 1 =>
      match readdirRefsTail env st dirIno ns refs 1 c with
      | .error e => .error e
      | .ok (es, st1) => .ok (dotEntry dirIno :: es, st1)
  else readdirRefsTail env st dirIno ns refs offset cap

/-- dtype per tree-entry mode, as `readdir_node` computes it. -/
def dtypeOf : EntryKind → Nat
  | .tree => DT_DIR
  | .blob => DT_REG
  | .blobExecutable => DT_REG
  | .link => DT_LNK
  | .commit => DT_DIR

/-- Attach `entry_offset`s to a tree's entries. -/
def treeWithOffsets (j : Nat) : List TreeEntry → List (Nat × TreeEntry)
  | [] => []
  | e :: rest => (j, e) :: treeWithOffsets (j + 1) rest

/-- The payload loop of `readdir_node`: materialize each emitted child,
then offer its record to the callback. -/
def readdirNodeLoop (env : Env) (node : Node) :
    List (Nat × TreeEntry) → Nat → Nat → St → Except IOErr (List DirEnt × St)
  | [], _, _, st => .ok ([], st)
  | (eoff, te) :: rest, offset, cap, st =>
    if eoff < offset then readdirNodeLoop env node rest offset cap st
    else
      match materialize_tree_child env st node te.name with
      | .error e => .error e
      | .ok (child, _, st1) =>
        match cap with
        | 0 => .ok ([], st1)
        | c + 1 =>
          match readdirNodeLoop env node rest offset c st1 with
          | .error e => .error e
          | .ok (es, st2) => .ok (⟨child.inode, eoff + 1, dtypeOf te.mode, te.name⟩ :: es, st2)

/-- The tree part of `readdir_node` once a tree id is known. -/
def readdirNodeTree (env : Env) (st : St) (node : Node) (treeId : List Nat)
    (offset cap : Nat) : Except IOErr (List DirEnt × St) :=
  match st.repo.trees.lookup treeId with
  | none => .error .other
  | some entries => readdirNodeLoop env node (treeWithOffsets 3 entries) offset cap st

/-- The kind dispatch of `readdir_node` after the `.`/`..` stages:
submodules and synthetic symlinks list nothing further, non-directories
are ENOTDIR. -/
def readdirNodeBody (env : Env) (st : St) (node : Node) (offset cap : Nat) :
    Except IOErr (List DirEnt × St) :=
  match node.kind with
  | .commit meta => readdirNodeTree env st node meta.tree offset cap
  | .tree _ t => readdirNodeTree env st node t offset cap
  | .submodule _ _ => .ok ([], st)
  | .syntheticSymlink _ _ => .ok ([], st)
  | .blob _ _ _ _ => .error (.raw ENOTDIR)
  | .symlink _ _ => .error (.raw ENOTDIR)

/-- The `..` stage of `readdir_node` (its `..` carries the node's recorded
parent, defaulting to the root inode). -/
def readdirNodeTail (env : Env) (st : St) (node : Node) (parentIno : Nat)
    (offset cap : Nat) : Except IOErr (List DirEnt × St) :=
  if offset = 1 then
    match cap with
    | 0 => .ok ([], st)
    | c + 1 =>
      match readdirNodeBody env st node 2 c with
      | .error e => .error e
      | .ok (es, st1) => .ok (dotdotEntry parentIno :: es, st1)
  else readdirNodeBody env st node offset cap

/-- `GitSnapFs::readdir_node`. -/
def readdir_node (env : Env) (st : St) (node : Node) (offset cap : Nat) :
    Except IOErr (List DirEnt × St) :=
  let parentIno := node.parent.getD ROOT_ID
  if offset = 0 then
    match cap with
    | 0 => .ok ([], st)
    | c + 1 =>
      match readdirNodeTail env st node parentIno 1 c with
      | .error e => .error e
      | .ok (es, st1) => .ok (dotEntry node.inode :: es, st1)
  else readdirNodeTail env st node parentIno offset cap

/-- `GitSnapFs::readdir`: the per-inode dispatch. -/
def readdir (env : Env) (st : St) (inode : Nat) (offset cap : Nat) :
    Except IOErr (List DirEnt × St) :=
  if inode = ROOT_ID then .ok (readdir_root offset cap, st)
  else if inode = INODE_COMMITS then .ok (readdir_commits st offset cap, st)
  else if inode = INODE_BRANCHES then
    readdir_refs env st INODE_BRANCHES offset st.repo.branches NAMESPACE_BRANCH cap
  else if inode = INODE_TAGS then
    readdir_refs env st INODE_TAGS offset st.repo.tags NAMESPACE_TAG cap
  else
    match node_for_inode st inode with
    | .error e => .error e
    | .ok node => readdir_node env st node offset cap

/-! ## Concrete instances used by witnesses and counterexamples -/

/-- A concrete environment: the zero hasher and a constant object-id
encoder (their values are irrelevant to the statements they witness). -/
def env0 : Env := ⟨fun _ _ => 0, fun _ => 100⟩

/-- A concrete commit object id (twenty 0xAA bytes). -/
def oidA : List Nat := List.replicate 20 170

/-- A concrete tree object id. -/
def oidT : List Nat := List.replicate 20 17

/-- A concrete blob object id. -/
def oidB : List Nat := List.replicate 20 34

/-- A concrete repository: one commit `oidA` (HEAD and branch `main`),
whose tree holds one regular file `README` with contents `"hi\n"`; no
rev-parse resolution succeeds. -/
def repo0 : Repo :=
  { headCommit := some oidA
    branches := [(strBytes "main", oidA)]
    tags := [(strBytes "v1", oidA)]
    revParse := fun _ => none
    commits := [(oidA, (oidT, 5))]
    trees := [(oidT, [⟨strBytes "README", .blob, oidB⟩])]
    blobs := [(oidB, [104, 105, 10])] }

/-- The mount state just after start: empty node cache. -/
def st0 : St := ⟨repo0, 0, []⟩

/-- The `CommitMeta` of `oidA` in `repo0`. -/
def metaA : CommitMeta := ⟨oidA, oidT, 5⟩

/-- A materialized blob node for `oidB` at inode 7. -/
def blobNode : Node := ⟨7, some 100, .blob metaA oidB false 3⟩

/-- A state with the blob node cached. -/
def stBlob : St := ⟨repo0, 0, [(7, blobNode)]⟩

/-- A materialized commit node for `oidA` at inode 6. -/
def commitNodeA : Node := ⟨6, some INODE_COMMITS, .commit metaA⟩

/-- A state over `repo0` with the commit node cached. -/
def stCached : St := ⟨repo0, 0, [(6, commitNodeA)]⟩

/-- An object id whose leading and trailing eight bytes disagree. -/
def oidLead : List Nat := [1, 2, 3, 4, 5, 6, 7, 8, 0, 0, 0, 0, 0, 0, 0, 0, 0, 0, 0, 0]

/-- An object id whose trailing eight bytes big-endian equal 1. -/
def oidOne : List Nat := List.replicate 19 0 ++ [1]

end GitSnapFs

namespace GitSnapFs

/-! ## Helper lemmas on the codec arithmetic -/

theorem beBytes_lt (l : List Nat) : beBytes l < 256 ^ l.length := by
  induction l with
  | nil => simp [beBytes]
  | cons b rest ih =>
    simp only [beBytes, List.length_cons, pow_succ]
    have hb : b % 256 < 256 := Nat.mod_lt _ (by norm_num)
    have : (b % 256) * 256 ^ rest.length ≤ 255 * 256 ^ rest.length :=
      Nat.mul_le_mul_right _ (by omega)
    nlinarith [ih, pow_pos (show 0 < 256 by norm_num) rest.length]

theorem lor_shift_add (a b k : Nat) (h : b < 2 ^ k) :
    (a <<< k) ||| b = a * 2 ^ k + b := by
  rw [Nat.shiftLeft_eq, Nat.mul_comm a (2 ^ k), ← Nat.mul_add_lt_is_or h]

/-- `ino_for` in arithmetic form: the low 60 bits of the trailing eight
bytes, plus the four-bit kind tag scaled into the top bits. -/
theorem ino_for_eq (oid : List Nat) (kind : InodeType) :
    ino_for oid kind
      = kind.tag % 16 * 2 ^ 60 + beBytes (oid.drop (oid.length - 8)) % 2 ^ 60 := by
  unfold ino_for
  have hmask : beBytes (oid.drop (oid.length - 8)) &&& (2 ^ 60 - 1)
      = beBytes (oid.drop (oid.length - 8)) % 2 ^ 60 :=
    Nat.and_pow_two_sub_one_eq_mod _ 60
  have hshift : (InodeType.tag kind <<< 60) % 2 ^ 64 = kind.tag % 16 * 2 ^ 60 := by
    rw [Nat.shiftLeft_eq]
    have : (2 : Nat) ^ 64 = 16 * 2 ^ 60 := by norm_num
    rw [this, Nat.mul_comm (InodeType.tag kind) (2 ^ 60), Nat.mul_comm 16 (2 ^ 60),
      Nat.mul_mod_mul_left, Nat.mul_comm]
  have hlow : beBytes (oid.drop (oid.length - 8)) % 2 ^ 60 < 2 ^ 60 :=
    Nat.mod_lt _ (by positivity)
  simp only [hmask, hshift]
  rw [Nat.lor_comm, Nat.mul_comm (kind.tag % 16) (2 ^ 60), ← Nat.mul_add_lt_is_or hlow,
    Nat.mul_comm]

/-- `synthetic_inode` in arithmetic form: namespace byte scaled into the
top byte, plus the low 56 bits of the hash. -/
theorem synthetic_inode_eq (H : Nat → List Nat → Nat) (ns : Nat) (name : List Nat) :
    synthetic_inode H ns name = ns % 256 * 2 ^ 56 + H ns name % 2 ^ 56 := by
  unfold synthetic_inode
  have hmask : H ns name &&& 0x00FFFFFFFFFFFFFF = H ns name % 2 ^ 56 := by
    have h56 : (0x00FFFFFFFFFFFFFF : Nat) = 2 ^ 56 - 1 := by norm_num
    rw [h56, Nat.and_pow_two_sub_one_eq_mod]
  rw [hmask, lor_shift_add _ _ _ (Nat.mod_lt _ (by positivity))]

/-! ## Claim C3 — the inode codec's byte selection -/

/-- C3 counterexample: the codec does not read the leading eight bytes of
the object id.  On an id whose leading and trailing eight bytes differ,
`ino_for` (the source codec, trailing bytes) disagrees with the
spec-worded leading-bytes codec. -/
theorem ino_for_leading_bytes_refuted :
    oidLead.length = 20 ∧
      ino_for oidLead InodeType.blob ≠ ino_for_spec_leading oidLead InodeType.blob :=
  ⟨by decide, by decide⟩

/-- C3 (amended): for every object id and kind, the codec takes the
TRAILING eight bytes of the object id, interprets them big-endian, clears
the top four bits (keeping the value mod `2^60`), and ORs the four-bit
kind tag into the top bits (adding `tag · 2^60`). -/
theorem ino_for_uses_trailing_bytes (oid : List Nat) (kind : InodeType)
    (h : oid.length = 20) :
    ino_for oid kind = kind.tag % 16 * 2 ^ 60 + beBytes (oid.drop 12) % 2 ^ 60 := by
  rw [ino_for_eq, h]

/-- Witness for C3's amended theorem at a concrete id and kind. -/
theorem ino_for_uses_trailing_bytes_witness :
    ino_for oidA InodeType.commit
      = InodeType.commit.tag % 16 * 2 ^ 60 + beBytes (oidA.drop 12) % 2 ^ 60 :=
  ino_for_uses_trailing_bytes oidA InodeType.commit (by decide)

/-! ## Claim C4 — reserved inodes and the codec -/

/-- C4 counterexample: the codec can produce a reserved inode.  A blob
(kind tag 0) whose object id ends in the big-endian bytes of 1 is mapped
to inode 1, the root's reserved inode. -/
theorem ino_for_hits_reserved_inode :
    oidOne.length = 20 ∧ ino_for oidOne InodeType.blob = 1 :=
  ⟨by decide, by decide⟩

/-- C4 (amended): only kinds with a nonzero (four-bit) tag are kept clear
of the reserved inodes: their inodes are at least `2^60` and therefore
never 1..5.  Blob inodes (tag 0) carry no such guarantee (see the
counterexample). -/
theorem ino_for_nonzero_tag_avoids_reserved (oid : List Nat) (kind : InodeType)
    (h : kind.tag % 16 ≠ 0) :
    2 ^ 60 ≤ ino_for oid kind ∧ ino_for oid kind ∉ ([1, 2, 3, 4, 5] : List Nat) := by
  have he := ino_for_eq oid kind
  have h1 : 1 ≤ kind.tag % 16 := Nat.one_le_iff_ne_zero.mpr h
  have hge : 2 ^ 60 ≤ ino_for oid kind := by
    rw [he]
    have : 1 * 2 ^ 60 ≤ kind.tag % 16 * 2 ^ 60 := Nat.mul_le_mul_right _ h1
    omega
  refine ⟨hge, ?_⟩
  intro hmem
  simp only [List.mem_cons, List.not_mem_nil, or_false] at hmem
  rcases hmem with h' | h' | h' | h' | h' <;> rw [h'] at hge <;> norm_num at hge

/-- Witness for C4's amended theorem at a concrete id and kind. -/
theorem ino_for_nonzero_tag_avoids_reserved_witness :
    2 ^ 60 ≤ ino_for oidA InodeType.tree :=
  (ino_for_nonzero_tag_avoids_reserved oidA InodeType.tree (by decide)).1

/-! ## Claim C10 — synthetic symlink inodes -/

/-- C10: a branch or tag symlink inode is the namespace byte (1 for
branches, 2 for tags) shifted into the top byte, ORed with the low 56
bits of the 64-bit hash; consequently it is at least `2^56`, never one of
the reserved inodes 1..5, and the branch and tag inodes for one name
never coincide.  `H` is the abstract 64-bit hasher. -/
theorem synthetic_inode_layout (H : Nat → List Nat → Nat) (name : List Nat) :
    synthetic_inode H NAMESPACE_BRANCH name
        = (NAMESPACE_BRANCH <<< 56) ||| (H NAMESPACE_BRANCH name &&& (2 ^ 56 - 1)) ∧
    synthetic_inode H NAMESPACE_TAG name
        = (NAMESPACE_TAG <<< 56) ||| (H NAMESPACE_TAG name &&& (2 ^ 56 - 1)) ∧
    2 ^ 56 ≤ synthetic_inode H NAMESPACE_BRANCH name ∧
    2 ^ 56 ≤ synthetic_inode H NAMESPACE_TAG name ∧
    synthetic_inode H NAMESPACE_BRANCH name ∉ ([1, 2, 3, 4, 5] : List Nat) ∧
    synthetic_inode H NAMESPACE_TAG name ∉ ([1, 2, 3, 4, 5] : List Nat) ∧
    synthetic_inode H NAMESPACE_BRANCH name ≠ synthetic_inode H NAMESPACE_TAG name := by
  have hb := synthetic_inode_eq H NAMESPACE_BRANCH name
  have ht := synthetic_inode_eq H NAMESPACE_TAG name
  have hbm : H NAMESPACE_BRANCH name % 2 ^ 56 < 2 ^ 56 := Nat.mod_lt _ (by positivity)
  have htm : H NAMESPACE_TAG name % 2 ^ 56 < 2 ^ 56 := Nat.mod_lt _ (by positivity)
  have h5 : (5 : Nat) < 2 ^ 56 := by norm_num
  have hbv : NAMESPACE_BRANCH % 256 = 1 := by decide
  have htv : NAMESPACE_TAG % 256 = 2 := by decide
  rw [hbv] at hb; rw [htv] at ht
  refine ⟨?_, ?_, by omega, by omega, ?_, ?_, by omega⟩
  · unfold synthetic_inode
    norm_num [NAMESPACE_BRANCH]
  · unfold synthetic_inode
    norm_num [NAMESPACE_TAG]
  · intro hmem
    simp only [List.mem_cons, List.not_mem_nil, or_false] at hmem
    omega
  · intro hmem
    simp only [List.mem_cons, List.not_mem_nil, or_false] at hmem
    omega

/-- Witness for C10's theorem at a concrete hasher and name. -/
theorem synthetic_inode_layout_witness :
    2 ^ 56 ≤ synthetic_inode (fun _ _ => 0) NAMESPACE_BRANCH (strBytes "main") :=
  (synthetic_inode_layout (fun _ _ => 0) (strBytes "main")).2.2.1

/-! ## Claim C1 — read-only operation surface -/

/-- C1 counterexample: `access` with a mask that includes W_OK but does
not fit in an `i32` returns EINVAL, not EROFS. -/
theorem access_large_wok_mask_not_erofs :
    (2 ^ 31 + 2) &&& W_OK ≠ 0 ∧
      access 1 (2 ^ 31 + 2) = .error (.raw EINVAL) ∧
      access 1 (2 ^ 31 + 2) ≠ .error (.raw EROFS) :=
  ⟨by decide, by decide, by decide⟩

/-- C1 (amended): every mutating operation returns EROFS for every inode
and every argument; `access` with a mask representable as `i32` returns
EROFS exactly when the mask includes W_OK and succeeds otherwise, while a
mask of `2^31` or more returns EINVAL. -/
theorem mutating_ops_erofs :
    (∀ i mask, mask < 2 ^ 31 → mask &&& W_OK ≠ 0 → access i mask = .error (.raw EROFS)) ∧
    (∀ i mask, mask < 2 ^ 31 → mask &&& W_OK = 0 → access i mask = .ok ()) ∧
    (∀ i mask, 2 ^ 31 ≤ mask → access i mask = .error (.raw EINVAL)) ∧
    (∀ i a, setattr i a = .error (.raw EROFS)) ∧
    (∀ l p n, symlink l p n = .error (.raw EROFS)) ∧
    (∀ i n m r u, mknod i n m r u = .error (.raw EROFS)) ∧
    (∀ p n m u, mkdir p n m u = .error (.raw EROFS)) ∧
    (∀ p n, unlink p n = .error (.raw EROFS)) ∧
    (∀ p n, rmdir p n = .error (.raw EROFS)) ∧
    (∀ o onm nd nn f, rename o onm nd nn f = .error (.raw EROFS)) ∧
    (∀ i np nn, link i np nn = .error (.raw EROFS)) ∧
    (∀ p n, create p n = .error (.raw EROFS)) ∧
    (∀ i d o, write i d o = .error (.raw EROFS)) ∧
    (∀ i m o l, fallocate i m o l = .error (.raw EROFS)) := by
  refine ⟨?_, ?_, ?_, ?_, ?_, ?_, ?_, ?_, ?_, ?_, ?_, ?_, ?_, ?_⟩
  · intro i mask h1 h2
    unfold access
    rw [if_pos h1, if_pos h2]
  · intro i mask h1 h2
    unfold access
    rw [if_pos h1, if_neg (fun hc => hc h2)]
  · intro i mask h1
    unfold access
    rw [if_neg (Nat.not_lt.mpr h1)]
  all_goals (intros; rfl)

/-- Witness for C1's amended theorem: the three access clauses applied at
concrete masks. -/
theorem mutating_ops_erofs_witness :
    access 1 2 = .error (.raw EROFS) ∧ access 1 4 = .ok () ∧
      access 1 (2 ^ 31 + 2) = .error (.raw EINVAL) :=
  ⟨mutating_ops_erofs.1 1 2 (by decide) (by decide),
   mutating_ops_erofs.2.1 1 4 (by decide) (by decide),
   mutating_ops_erofs.2.2.1 1 (2 ^ 31 + 2) (by decide)⟩

/-! ## Claim C5 — read is a pure slice projection -/

/-- C5: for a cached blob node whose blob has contents `data`,
`read(inode, offset = o, length = l)` returns exactly the slice
`data[o : min(o + l, n)]` (so a read at or past EOF, a read past the
remainder, and a read of an empty blob all behave as the claim states),
and the returned byte count is the slice's length. -/
theorem read_is_slice (st : St) (inode : Nat) (node : Node) (meta : CommitMeta)
    (oid : List Nat) (ex : Bool) (sz : Nat) (data : List Nat) (o l : Nat)
    (hn : st.nodes.lookup inode = some node)
    (hk : node.kind = .blob meta oid ex sz)
    (hb : st.repo.blobs.lookup oid = some data) :
    read st inode l o = .ok ((data.take (min (o + l) data.length)).drop o) ∧
      ((data.take (min (o + l) data.length)).drop o).length = min (o + l) data.length - o := by
  have hlen : ((data.take (min (o + l) data.length)).drop o).length
      = min (o + l) data.length - o := by
    simp only [List.length_drop, List.length_take]
    omega
  refine ⟨?_, hlen⟩
  unfold read node_for_inode
  rw [hn]
  simp only [hk, hb]
  by_cases hge : o ≥ data.length
  · rw [if_pos hge]
    have : (data.take (min (o + l) data.length)).drop o = [] := by
      apply List.drop_eq_nil_of_le
      simp only [List.length_take]
      omega
    rw [this]
  · rw [if_neg hge]
    rw [List.drop_take]

/-- Witness for C5 at a concrete blob: reading `"hi\n"` at offset 1 with
length 5 returns the tail slice. -/
theorem read_is_slice_witness :
    read stBlob 7 5 1
      = .ok ((([104, 105, 10] : List Nat).take
          (min (1 + 5) ([104, 105, 10] : List Nat).length)).drop 1) :=
  (read_is_slice stBlob 7 blobNode metaA oidB false 3 [104, 105, 10] 1 5
    (by decide) (by decide) (by decide)).1

/-! ## Claim C6 — inode decoding -/

/-- C6 counterexample: resolving an inode to its object DOES depend on the
inode having been materialized earlier in the same process.  Over one and
the same repository, the inode 6 resolves after materialization and fails
with ENOENT without it; no hex prefix is reconstructed and no object-
database prefix resolution is consulted. -/
theorem node_for_inode_depends_on_materialization :
    stCached.repo = st0.repo ∧
      node_for_inode stCached 6 = .ok commitNodeA ∧
      node_for_inode st0 6 = .error (.raw ENOENT) :=
  ⟨rfl, by decide, by decide⟩

/-- C6 (amended): the filesystem resolves a non-reserved inode purely by
looking it up in the in-process materialized-node cache: a cached inode
returns its cached node, an uncached one fails with ENOENT. -/
theorem node_for_inode_is_cache_lookup (st : St) (inode : Nat) :
    (st.nodes.lookup inode = none → node_for_inode st inode = .error (.raw ENOENT)) ∧
    (∀ node, st.nodes.lookup inode = some node → node_for_inode st inode = .ok node) := by
  constructor
  · intro h
    unfold node_for_inode
    rw [h]
  · intro node h
    unfold node_for_inode
    rw [h]

/-- Witness for C6's amended theorem at the empty cache. -/
theorem node_for_inode_is_cache_lookup_witness :
    node_for_inode st0 6 = .error (.raw ENOENT) :=
  (node_for_inode_is_cache_lookup st0 6).1 (by decide)

/-! ## Helper lemmas for the symlink-target claims -/

theorem hexOid_length (oid : List Nat) : (hexOid oid).length = 2 * oid.length := by
  induction oid with
  | nil => simp [hexOid]
  | cons b rest ih =>
    simp only [hexOid, List.map_cons, List.flatten_cons, List.length_append, List.length_cons,
      hexByte, List.length_nil] at ih ⊢
    omega

theorem lookup_insertNode_self (l : List (Nat × Node)) (k : Nat) (v : Node) :
    (insertNode l k v).lookup k = some v := by
  simp [insertNode, List.lookup]

/-- `ensure_commit_node` returns metadata whose id is the requested commit
and leaves the repository untouched, provided any cached node at the
commit's inode is a commit node for that same id (true in every reachable
state; a violation would need a collision of `inode_from_oid`). -/
theorem ensure_commit_node_id (env : Env) (st : St) (c treeId : List Nat) (t : Int)
    (hc : st.repo.commits.lookup c = some (treeId, t))
    (hcache : ∀ n, st.nodes.lookup (env.inodeFromOid c) = some n →
        ∀ m, n.kind = .commit m → m.id = c) :
    ∃ meta st', ensure_commit_node env st c = .ok (meta, env.inodeFromOid c, st') ∧
      meta.id = c ∧ st'.repo = st.repo := by
  unfold ensure_commit_node
  cases hl : st.nodes.lookup (env.inodeFromOid c) with
  | none =>
    refine ⟨⟨c, treeId, t⟩,
        { st with nodes := (insertNode st.nodes (env.inodeFromOid c)
            ⟨env.inodeFromOid c, some INODE_COMMITS, .commit ⟨c, treeId, t⟩⟩) }, ?_, rfl, rfl⟩
    simp [hl, hc]
  | some existing =>
    cases hk : existing.kind with
    | commit m =>
      refine ⟨m, st, ?_, hcache existing hl m hk, rfl⟩
      simp [hl, hk]
    | tree meta tr =>
      refine ⟨⟨c, treeId, t⟩,
        { st with nodes := (insertNode st.nodes (env.inodeFromOid c)
            ⟨env.inodeFromOid c, some INODE_COMMITS, .commit ⟨c, treeId, t⟩⟩) }, ?_, rfl, rfl⟩
      simp [hl, hk, hc]
    | blob meta oid ex sz =>
      refine ⟨⟨c, treeId, t⟩,
        { st with nodes := (insertNode st.nodes (env.inodeFromOid c)
            ⟨env.inodeFromOid c, some INODE_COMMITS, .commit ⟨c, treeId, t⟩⟩) }, ?_, rfl, rfl⟩
      simp [hl, hk, hc]
    | symlink meta target =>
      refine ⟨⟨c, treeId, t⟩,
        { st with nodes := (insertNode st.nodes (env.inodeFromOid c)
            ⟨env.inodeFromOid c, some INODE_COMMITS, .commit ⟨c, treeId, t⟩⟩) }, ?_, rfl, rfl⟩
      simp [hl, hk, hc]
    | submodule meta oid =>
      refine ⟨⟨c, treeId, t⟩,
        { st with nodes := (insertNode st.nodes (env.inodeFromOid c)
            ⟨env.inodeFromOid c, some INODE_COMMITS, .commit ⟨c, treeId, t⟩⟩) }, ?_, rfl, rfl⟩
      simp [hl, hk, hc]
    | syntheticSymlink target time =>
      refine ⟨⟨c, treeId, t⟩,
        { st with nodes := (insertNode st.nodes (env.inodeFromOid c)
            ⟨env.inodeFromOid c, some INODE_COMMITS, .commit ⟨c, treeId, t⟩⟩) }, ?_, rfl, rfl⟩
      simp [hl, hk, hc]

/-- After a successful `lookup_reference_symlink`, the entry's inode is
the synthetic inode of the name and `readlink` on it returns
`../commits/<full-hex>` of the peeled commit. -/
theorem lookup_reference_symlink_spec (env : Env) (st : St) (name : List Nat) (ns : Nat)
    (refs : List (List Nat × List Nat)) (parent : Nat)
    (nm c treeId : List Nat) (t : Int)
    (hu : validUtf8 name = true)
    (hfind : refs.find? (fun r => r.1 == name) = some (nm, c))
    (hc : st.repo.commits.lookup c = some (treeId, t))
    (hcache : ∀ n, st.nodes.lookup (env.inodeFromOid c) = some n →
        ∀ m, n.kind = .commit m → m.id = c)
    (hns : 1 ≤ ns % 256) :
    ∃ e st', lookup_reference_symlink env st name ns refs parent = .ok (e, st') ∧
      e.inode = synthetic_inode env.hashFn ns name ∧
      readlink env st' e.inode = .ok (targetFor c, st') := by
  obtain ⟨meta, st1, hens, hid, _⟩ := ensure_commit_node_id env st c treeId t hc hcache
  have hne : synthetic_inode env.hashFn ns name ≠ INODE_HEAD := by
    have hdec := synthetic_inode_eq env.hashFn ns name
    have h56 : (2 : Nat) ^ 56 ≤ synthetic_inode env.hashFn ns name := by
      rw [hdec]
      have : 1 * 2 ^ 56 ≤ ns % 256 * 2 ^ 56 := Nat.mul_le_mul_right _ hns
      omega
    intro hcontra
    rw [hcontra] at h56
    norm_num [INODE_HEAD] at h56
  have hmain : lookup_reference_symlink env st name ns refs parent
      = .ok ({ inode := synthetic_inode env.hashFn ns name,
               attr := build_symlink_attr (synthetic_inode env.hashFn ns name)
                 SYMLINK_ATTR_MODE meta.time (targetFor meta.id).length },
             { st1 with nodes := (insertNode st1.nodes (synthetic_inode env.hashFn ns name)
                 ⟨synthetic_inode env.hashFn ns name, some parent,
                  .syntheticSymlink (targetFor meta.id) meta.time⟩) }) := by
    unfold lookup_reference_symlink
    rw [if_pos hu]
    simp only [hfind, hens]
  refine ⟨_, _, hmain, rfl, ?_⟩
  unfold readlink
  rw [if_neg hne]
  unfold node_for_inode
  simp [lookup_insertNode_self, hid]

/-! ## Claim C8 — symlink targets -/

/-- C8: `readlink` of the HEAD inode re-resolves HEAD on each call and
returns `../commits/<full-hex>` of the peeled commit; looking up a branch
or tag symlink and readlink-ing the returned inode likewise yields
`../commits/<full-hex>` of the ref's peeled commit; the hex is the full
(40-character, for 20-byte ids) object id.  The cache hypothesis rules out
a poisoned cache entry at the commit's inode, which only an
`inode_from_oid` collision could create. -/
theorem readlink_targets (env : Env) (st : St) :
    (∀ c treeId t, st.repo.headCommit = some c →
      st.repo.commits.lookup c = some (treeId, t) →
      (∀ n, st.nodes.lookup (env.inodeFromOid c) = some n →
        ∀ m, n.kind = .commit m → m.id = c) →
      ∃ st', readlink env st INODE_HEAD = .ok (targetFor c, st')) ∧
    (∀ name nm c treeId t, validUtf8 name = true →
      st.repo.branches.find? (fun r => r.1 == name) = some (nm, c) →
      st.repo.commits.lookup c = some (treeId, t) →
      (∀ n, st.nodes.lookup (env.inodeFromOid c) = some n →
        ∀ m, n.kind = .commit m → m.id = c) →
      ∃ e st', lookup env st INODE_BRANCHES name = .ok (e, st') ∧
        e.inode = synthetic_inode env.hashFn NAMESPACE_BRANCH name ∧
        readlink env st' e.inode = .ok (targetFor c, st')) ∧
    (∀ name nm c treeId t, validUtf8 name = true →
      st.repo.tags.find? (fun r => r.1 == name) = some (nm, c) →
      st.repo.commits.lookup c = some (treeId, t) →
      (∀ n, st.nodes.lookup (env.inodeFromOid c) = some n →
        ∀ m, n.kind = .commit m → m.id = c) →
      ∃ e st', lookup env st INODE_TAGS name = .ok (e, st') ∧
        e.inode = synthetic_inode env.hashFn NAMESPACE_TAG name ∧
        readlink env st' e.inode = .ok (targetFor c, st')) ∧
    (∀ c, targetFor c = strBytes "../commits/" ++ hexOid c) ∧
    (∀ c : List Nat, c.length = 20 → (hexOid c).length = 40) := by
  refine ⟨?_, ?_, ?_, fun c => rfl, ?_⟩
  · intro c treeId t hhead hc hcache
    obtain ⟨meta, st1, hens, hid, _⟩ := ensure_commit_node_id env st c treeId t hc hcache
    refine ⟨st1, ?_⟩
    unfold readlink
    rw [if_pos rfl]
    unfold head_metadata resolve_head
    simp only [hhead, hc, hens, hid]
  · intro name nm c treeId t hu hfind hc hcache
    have hdisp : lookup env st INODE_BRANCHES name
        = lookup_reference_symlink env st name NAMESPACE_BRANCH st.repo.branches
            INODE_BRANCHES := rfl
    rw [hdisp]
    exact lookup_reference_symlink_spec env st name NAMESPACE_BRANCH st.repo.branches
      INODE_BRANCHES nm c treeId t hu hfind hc hcache (by decide)
  · intro name nm c treeId t hu hfind hc hcache
    have hdisp : lookup env st INODE_TAGS name
        = lookup_reference_symlink env st name NAMESPACE_TAG st.repo.tags INODE_TAGS := rfl
    rw [hdisp]
    exact lookup_reference_symlink_spec env st name NAMESPACE_TAG st.repo.tags
      INODE_TAGS nm c treeId t hu hfind hc hcache (by decide)
  · intro c hc
    rw [hexOid_length, hc]

/-- Witness for C8 at the concrete repository: readlink of HEAD yields the
target of `oidA`. -/
theorem readlink_targets_witness :
    ∃ st', readlink env0 st0 INODE_HEAD = .ok (targetFor oidA, st') :=
  (readlink_targets env0 st0).1 oidA oidT 5 rfl (by decide)
    (fun n hn => by simp [st0, List.lookup] at hn)

/-! ## Claim C9 — lookup of absent names -/

/-- C9 counterexample: under `commits/`, a name that resolves to no commit
fails with the wrapped library error (`io::Error::other`, no errno), not
with ENOENT. -/
theorem lookup_commits_unresolved_not_enoent :
    lookup env0 st0 INODE_COMMITS (strBytes "zz") = .error .other ∧
      (Except.error IOErr.other : Except IOErr (Entry × St))
        ≠ .error (.raw ENOENT) := by
  refine ⟨rfl, ?_⟩
  intro h
  injection h with h2
  exact (by decide : IOErr.other ≠ IOErr.raw ENOENT) h2

/-- C9 (amended): lookup of a name that is not present in its parent
returns ENOENT for the root, for `branches/` and `tags/`, and for
Git-tree-backed directories, and also under `commits/` when the name is
not valid UTF-8; but a well-formed name under `commits/` that resolves to
no commit returns the wrapped library error instead of ENOENT. -/
theorem lookup_absent_names (env : Env) (st : St) :
    (∀ name, name ≠ strBytes "commits" → name ≠ strBytes "branches" →
      name ≠ strBytes "tags" → name ≠ strBytes "HEAD" →
      lookup env st ROOT_ID name = .error (.raw ENOENT)) ∧
    (∀ name, st.repo.branches.find? (fun r => r.1 == name) = none →
      lookup env st INODE_BRANCHES name = .error (.raw ENOENT)) ∧
    (∀ name, st.repo.tags.find? (fun r => r.1 == name) = none →
      lookup env st INODE_TAGS name = .error (.raw ENOENT)) ∧
    (∀ p pn name meta treeId entries,
      p ≠ ROOT_ID → p ≠ INODE_COMMITS → p ≠ INODE_BRANCHES → p ≠ INODE_TAGS →
      st.nodes.lookup p = some pn →
      dirTreeOf pn.kind = some (meta, treeId) →
      st.repo.trees.lookup treeId = some entries →
      entries.find? (fun e => e.name == name) = none →
      lookup env st p name = .error (.raw ENOENT)) ∧
    (∀ name, validUtf8 name = false →
      lookup env st INODE_COMMITS name = .error (.raw ENOENT)) ∧
    (∀ name, validUtf8 name = true → st.repo.revParse name = none →
      lookup env st INODE_COMMITS name = .error .other) := by
  refine ⟨?_, ?_, ?_, ?_, ?_, ?_⟩
  · intro name h1 h2 h3 h4
    unfold lookup
    rw [if_pos rfl, if_neg h1, if_neg h2, if_neg h3, if_neg h4]
  · intro name hfind
    have hdisp : lookup env st INODE_BRANCHES name
        = lookup_reference_symlink env st name NAMESPACE_BRANCH st.repo.branches
            INODE_BRANCHES := rfl
    rw [hdisp]
    unfold lookup_reference_symlink
    by_cases hu : validUtf8 name = true
    · rw [if_pos hu, hfind]
    · rw [if_neg hu]
  · intro name hfind
    have hdisp : lookup env st INODE_TAGS name
        = lookup_reference_symlink env st name NAMESPACE_TAG st.repo.tags INODE_TAGS := rfl
    rw [hdisp]
    unfold lookup_reference_symlink
    by_cases hu : validUtf8 name = true
    · rw [if_pos hu, hfind]
    · rw [if_neg hu]
  · intro p pn name meta treeId entries hp1 hp2 hp3 hp4 hn hd ht hf
    unfold lookup
    rw [if_neg hp1, if_neg hp2, if_neg hp3, if_neg hp4]
    simp only [node_for_inode, materialize_tree_child, hn, hd, ht, hf]
  · intro name hu
    have hdisp : lookup env st INODE_COMMITS name = lookup_commit env st name := rfl
    rw [hdisp]
    unfold lookup_commit
    rw [if_neg (by simp [hu])]
  · intro name hu hrev
    have hdisp : lookup env st INODE_COMMITS name = lookup_commit env st name := rfl
    rw [hdisp]
    unfold lookup_commit
    rw [if_pos hu]
    unfold resolve_full_commit_id
    rw [hrev]

/-! ## Helper lemmas for the directory-listing engine -/

theorem payloadFrom_off_mem (xs : List (Nat × Nat × List Nat)) :
    ∀ j e, e ∈ (payloadFrom j xs).map Prod.snd → j < e.off := by
  induction xs with
  | nil =>
    intro j e he
    simp [payloadFrom] at he
  | cons x rest ih =>
    intro j e he
    obtain ⟨ino, typ, nm⟩ := x
    simp only [payloadFrom, List.map_cons, List.mem_cons] at he
    rcases he with he | he
    · subst he
      show j < j + 1
      omega
    · have := ih (j + 1) e he
      omega

theorem payloadFrom_pairwise (xs : List (Nat × Nat × List Nat)) :
    ∀ j, List.Pairwise (fun a b => a.off < b.off) ((payloadFrom j xs).map Prod.snd) := by
  induction xs with
  | nil =>
    intro j
    simp [payloadFrom]
  | cons x rest ih =>
    intro j
    obtain ⟨ino, typ, nm⟩ := x
    simp only [payloadFrom, List.map_cons, List.pairwise_cons]
    refine ⟨?_, ih (j + 1)⟩
    intro e he
    exact payloadFrom_off_mem rest (j + 1) e he

theorem emitPayload_eq (xs : List (Nat × Nat × List Nat)) :
    ∀ j o c, emitPayload (payloadFrom j xs) o c
      = (((payloadFrom j xs).map Prod.snd).filter (fun e => decide (o < e.off))).take c := by
  induction xs with
  | nil =>
    intro j o c
    simp [payloadFrom, emitPayload]
  | cons x rest ih =>
    intro j o c
    obtain ⟨ino, typ, nm⟩ := x
    simp only [payloadFrom, List.map_cons, emitPayload]
    by_cases hskip : j < o
    · rw [if_pos hskip]
      have hnot : ¬ (decide (o < ((⟨ino, j + 1, typ, nm⟩ : DirEnt)).off) = true) := by
        simp only [decide_eq_true_eq]
        show ¬ o < j + 1
        omega
      rw [List.filter_cons, if_neg hnot]
      exact ih (j + 1) o c
    · rw [if_neg hskip]
      have hyes : decide (o < ((⟨ino, j + 1, typ, nm⟩ : DirEnt)).off) = true := by
        simp only [decide_eq_true_eq]
        show o < j + 1
        omega
      rw [List.filter_cons, if_pos hyes]
      cases c with
      | zero => rfl
      | succ c' =>
        simp only [List.take_succ_cons, List.cons.injEq, true_and]
        exact ih (j + 1) o c'

theorem listingTail_eq (parentIno : Nat) (xs : List (Nat × Nat × List Nat)) (o c : Nat)
    (ho : 1 ≤ o) :
    listingTail parentIno (mkPayload xs) o c
      = ((dotdotEntry parentIno :: (mkPayload xs).map Prod.snd).filter
          (fun e => decide (o < e.off))).take c := by
  unfold mkPayload
  by_cases h1 : o = 1
  · subst h1
    have hfilter : (dotdotEntry parentIno :: (payloadFrom 3 xs).map Prod.snd).filter
        (fun e => decide (1 < e.off))
        = dotdotEntry parentIno :: ((payloadFrom 3 xs).map Prod.snd).filter
            (fun e => decide (1 < e.off)) := rfl
    rw [hfilter]
    unfold listingTail
    rw [if_pos rfl]
    cases c with
    | zero => rfl
    | succ c' =>
      simp only [List.take_succ_cons, List.cons.injEq, true_and]
      rw [emitPayload_eq xs 3 2 c']
      have hfe : ((payloadFrom 3 xs).map Prod.snd).filter (fun e => decide (2 < e.off))
          = ((payloadFrom 3 xs).map Prod.snd).filter (fun e => decide (1 < e.off)) := by
        apply List.filter_congr
        intro e he
        have := payloadFrom_off_mem xs 3 e he
        simp only [decide_eq_decide]
        omega
      rw [hfe]
  · have hnot : ¬ (decide (o < (dotdotEntry parentIno).off) = true) := by
      simp only [decide_eq_true_eq]
      show ¬ o < 2
      omega
    have hfilter : (dotdotEntry parentIno :: (payloadFrom 3 xs).map Prod.snd).filter
        (fun e => decide (o < e.off))
        = ((payloadFrom 3 xs).map Prod.snd).filter (fun e => decide (o < e.off)) := by
      rw [List.filter_cons, if_neg hnot]
    rw [hfilter]
    unfold listingTail
    rw [if_neg h1]
    exact emitPayload_eq xs 3 o c

theorem listingGo_eq (selfIno parentIno : Nat) (xs : List (Nat × Nat × List Nat)) (o c : Nat) :
    listingGo selfIno parentIno (mkPayload xs) o c
      = ((dirRecords selfIno parentIno xs).filter (fun e => decide (o < e.off))).take c := by
  unfold dirRecords mkPayload
  by_cases h0 : o = 0
  · subst h0
    have hfilter : ((dotEntry selfIno :: dotdotEntry parentIno
          :: (payloadFrom 3 xs).map Prod.snd).filter (fun e => decide (0 < e.off)))
        = dotEntry selfIno :: (dotdotEntry parentIno
            :: (payloadFrom 3 xs).map Prod.snd).filter (fun e => decide (0 < e.off)) := rfl
    rw [hfilter]
    unfold listingGo
    rw [if_pos rfl]
    cases c with
    | zero => rfl
    | succ c' =>
      simp only [List.take_succ_cons, List.cons.injEq, true_and]
      have ht := listingTail_eq parentIno xs 1 c' (le_refl 1)
      unfold mkPayload at ht
      rw [ht]
      have hfe : (dotdotEntry parentIno :: (payloadFrom 3 xs).map Prod.snd).filter
          (fun e => decide (1 < e.off))
          = (dotdotEntry parentIno :: (payloadFrom 3 xs).map Prod.snd).filter
              (fun e => decide (0 < e.off)) := by
        apply List.filter_congr
        intro e he
        rcases List.mem_cons.mp he with he' | he'
        · subst he'
          rfl
        · have := payloadFrom_off_mem xs 3 e he'
          simp only [decide_eq_decide]
          omega
      rw [hfe]
  · have hnot : ¬ (decide (o < (dotEntry selfIno).off) = true) := by
      simp only [decide_eq_true_eq]
      show ¬ o < 1
      omega
    have hfilter : ((dotEntry selfIno :: dotdotEntry parentIno
          :: (payloadFrom 3 xs).map Prod.snd).filter (fun e => decide (o < e.off)))
        = (dotdotEntry parentIno :: (payloadFrom 3 xs).map Prod.snd).filter
            (fun e => decide (o < e.off)) := by
      rw [List.filter_cons, if_neg hnot]
    rw [hfilter]
    unfold listingGo
    rw [if_neg h0]
    have ht := listingTail_eq parentIno xs o c (by omega)
    unfold mkPayload at ht
    exact ht

theorem dirRecords_off_pos (selfIno parentIno : Nat) (xs : List (Nat × Nat × List Nat)) :
    ∀ e ∈ dirRecords selfIno parentIno xs, 0 < e.off := by
  intro e he
  rcases List.mem_cons.mp he with he' | he'
  · subst he'
    exact (by omega : (0 : Nat) < 1)
  rcases List.mem_cons.mp he' with he'' | he''
  · subst he''
    exact (by omega : (0 : Nat) < 2)
  · have := payloadFrom_off_mem xs 3 e he''
    omega

theorem dirRecords_pairwise (selfIno parentIno : Nat) (xs : List (Nat × Nat × List Nat)) :
    List.Pairwise (fun a b => a.off < b.off) (dirRecords selfIno parentIno xs) := by
  unfold dirRecords
  rw [List.pairwise_cons]
  constructor
  · intro e he
    rcases List.mem_cons.mp he with he' | he'
    · subst he'
      exact (by omega : (1 : Nat) < 2)
    · have := payloadFrom_off_mem xs 3 e he'
      show (dotEntry selfIno).off < e.off
      have hd : (dotEntry selfIno).off = 1 := rfl
      omega
  rw [List.pairwise_cons]
  constructor
  · intro e he
    have := payloadFrom_off_mem xs 3 e he
    show (dotdotEntry parentIno).off < e.off
    have hd : (dotdotEntry parentIno).off = 2 := rfl
    omega
  · exact payloadFrom_pairwise xs 3

theorem sorted_filter_drop : ∀ (l : List DirEnt),
    List.Pairwise (fun a b => a.off < b.off) l →
    ∀ (k : Nat) (hk : k < l.length),
      l.filter (fun e => decide ((l.get ⟨k, hk⟩).off < e.off)) = l.drop (k + 1) := by
  intro l
  induction l with
  | nil =>
    intro _ k hk
    simp at hk
  | cons a t ih =>
    intro hp k hk
    rw [List.pairwise_cons] at hp
    obtain ⟨ha, ht⟩ := hp
    cases k with
    | zero =>
      have hget : (a :: t).get ⟨0, hk⟩ = a := rfl
      rw [hget]
      have hnot : ¬ (decide (a.off < a.off) = true) := by simp
      rw [List.filter_cons, if_neg hnot, List.drop_succ_cons, List.drop_zero]
      apply List.filter_eq_self.mpr
      intro e he
      simp only [decide_eq_true_eq]
      exact ha e he
    | succ k' =>
      have hk' : k' < t.length := by
        simp only [List.length_cons] at hk
        omega
      have hget : (a :: t).get ⟨k' + 1, hk⟩ = t.get ⟨k', hk'⟩ := rfl
      rw [hget]
      have hmem : t.get ⟨k', hk'⟩ ∈ t := List.get_mem t k' hk'
      have hnot : ¬ (decide ((t.get ⟨k', hk'⟩).off < a.off) = true) := by
        simp only [decide_eq_true_eq]
        have := ha _ hmem
        omega
      rw [List.filter_cons, if_neg hnot, List.drop_succ_cons]
      exact ih ht k' hk'

theorem chainCalls_drop (selfIno parentIno : Nat) (xs : List (Nat × Nat × List Nat)) :
    ∀ (caps : List Nat) (m o : Nat),
      (∀ c ∈ caps, 1 ≤ c) →
      (dirRecords selfIno parentIno xs).length - m ≤ caps.length →
      (dirRecords selfIno parentIno xs).filter (fun e => decide (o < e.off))
        = (dirRecords selfIno parentIno xs).drop m →
      chainCalls selfIno parentIno xs o caps = (dirRecords selfIno parentIno xs).drop m := by
  intro caps
  induction caps with
  | nil =>
    intro m o _ h2 _
    have hle : (dirRecords selfIno parentIno xs).length ≤ m := by
      simp only [List.length_nil] at h2
      omega
    rw [List.drop_eq_nil_of_le hle]
    rfl
  | cons c cs ih =>
    intro m o h1 h2 hf
    have hout : listingGo selfIno parentIno (mkPayload xs) o c
        = ((dirRecords selfIno parentIno xs).drop m).take c := by
      rw [listingGo_eq, hf]
    show listingGo selfIno parentIno (mkPayload xs) o c
        ++ (match (listingGo selfIno parentIno (mkPayload xs) o c).getLast? with
            | some e => chainCalls selfIno parentIno xs e.off cs
            | none => []) = _
    rw [hout]
    by_cases hm : (dirRecords selfIno parentIno xs).length ≤ m
    · have hnil : (dirRecords selfIno parentIno xs).drop m = [] :=
        List.drop_eq_nil_of_le hm
      rw [hnil]
      simp
    · push_neg at hm
      set R := dirRecords selfIno parentIno xs with hR
      have hc1 : 1 ≤ c := h1 c (List.mem_cons_self c cs)
      have hdl : (R.drop m).length = R.length - m := List.length_drop m R
      have hLpos : 0 < min c (R.length - m) := by omega
      have hidx : m + min c (R.length - m) - 1 < R.length := by omega
      have hlast : ((R.drop m).take c).getLast?
          = some (R.get ⟨m + min c (R.length - m) - 1, hidx⟩) := by
        rw [List.getLast?_eq_getElem?]
        have hlen : ((R.drop m).take c).length = min c (R.length - m) := by
          simp [List.length_take, hdl]
        rw [hlen, List.getElem?_take_of_lt (by omega), List.getElem?_drop]
        have harith : m + (min c (R.length - m) - 1) = m + min c (R.length - m) - 1 := by
          omega
        rw [harith, List.getElem?_eq_getElem hidx]
        rfl
      rw [hlast]
      show List.take c (List.drop m R)
          ++ chainCalls selfIno parentIno xs
              ((R.get ⟨m + min c (R.length - m) - 1, hidx⟩).off) cs
        = List.drop m R
      have hfilter2 : R.filter (fun e =>
            decide ((R.get ⟨m + min c (R.length - m) - 1, hidx⟩).off < e.off))
          = R.drop (m + min c (R.length - m)) := by
        rw [sorted_filter_drop R (dirRecords_pairwise selfIno parentIno xs) _ hidx]
        congr 1
        omega
      have hcs : ∀ x ∈ cs, 1 ≤ x := fun x hx => h1 x (List.mem_cons_of_mem c hx)
      have h2' : R.length - m ≤ cs.length + 1 := by
        simp only [List.length_cons] at h2
        omega
      have hlen2 : R.length - (m + min c (R.length - m)) ≤ cs.length := by omega
      rw [ih (m + min c (R.length - m))
        ((R.get ⟨m + min c (R.length - m) - 1, hidx⟩).off) hcs hlen2 hfilter2]
      have htake : (R.drop m).take c = (R.drop m).take (min c (R.length - m)) := by
        rw [List.take_eq_take, hdl]
        omega
      rw [htake]
      have hdrop : R.drop (m + min c (R.length - m))
          = (R.drop m).drop (min c (R.length - m)) :=
        (List.drop_drop _ _ _).symm
      rw [hdrop, List.take_append_drop]

theorem chainCalls_complete (selfIno parentIno : Nat) (xs : List (Nat × Nat × List Nat))
    (caps : List Nat) (h1 : ∀ c ∈ caps, 1 ≤ c)
    (h2 : (dirRecords selfIno parentIno xs).length ≤ caps.length) :
    chainCalls selfIno parentIno xs 0 caps = dirRecords selfIno parentIno xs := by
  have h0 : (dirRecords selfIno parentIno xs).filter (fun e => decide (0 < e.off))
      = (dirRecords selfIno parentIno xs).drop 0 := by
    rw [List.drop_zero]
    apply List.filter_eq_self.mpr
    intro e he
    simp only [decide_eq_true_eq]
    exact dirRecords_off_pos selfIno parentIno xs e he
  have hmain := chainCalls_drop selfIno parentIno xs caps 0 0 h1 (by omega) h0
  rw [List.drop_zero] at hmain
  exact hmain

/-! ## Claim C7 — readdir cursor semantics -/

/-- C7 counterexample: a call with offset k does not emit the records with
offset (or one-based position) greater than **or equal to** k.  At offset
2 the root listing emits only the four payload records: the `..` record
(offset 2, position 2) is not re-emitted, under either reading of
"index". -/
theorem readdir_offset_not_inclusive :
    readdir_root 2 10
        ≠ (dirRecords ROOT_ID ROOT_ID rootEntries).filter (fun e => decide (2 ≤ e.off)) ∧
      readdir_root 2 10 ≠ (dirRecords ROOT_ID ROOT_ID rootEntries).drop 1 :=
  ⟨by decide, by decide⟩

/-- C7 (amended): every listing built on the shared engine emits `.` at
offset 1, `..` at offset 2, and records at strictly increasing offsets; a
call with offset k emits exactly the records whose offset is strictly
greater than k (up to the reply-buffer capacity); and a sequence of calls
that chain their returned offsets, each with capacity at least one and
enough calls, reproduces exactly the single-call listing. -/
theorem readdir_paging (selfIno parentIno : Nat) (xs : List (Nat × Nat × List Nat)) :
    (dotEntry selfIno).off = 1 ∧ (dotdotEntry parentIno).off = 2 ∧
    (dirRecords selfIno parentIno xs).take 2 = [dotEntry selfIno, dotdotEntry parentIno] ∧
    List.Pairwise (fun a b => a.off < b.off) (dirRecords selfIno parentIno xs) ∧
    (∀ o c, listingGo selfIno parentIno (mkPayload xs) o c
        = ((dirRecords selfIno parentIno xs).filter (fun e => decide (o < e.off))).take c) ∧
    (∀ caps, (∀ c ∈ caps, 1 ≤ c) →
      (dirRecords selfIno parentIno xs).length ≤ caps.length →
      chainCalls selfIno parentIno xs 0 caps = dirRecords selfIno parentIno xs) :=
  ⟨rfl, rfl, rfl, dirRecords_pairwise selfIno parentIno xs,
   listingGo_eq selfIno parentIno xs, chainCalls_complete selfIno parentIno xs⟩

/-- Witness for C7's amended theorem: six chained single-record calls over
the root directory reproduce its full listing. -/
theorem readdir_paging_witness :
    chainCalls ROOT_ID ROOT_ID rootEntries 0 [1, 1, 1, 1, 1, 1]
      = dirRecords ROOT_ID ROOT_ID rootEntries :=
  (readdir_paging ROOT_ID ROOT_ID rootEntries).2.2.2.2.2 [1, 1, 1, 1, 1, 1]
    (by decide) (by decide)

/-! ## Claim C2 — readdir of `commits/` -/

/-- C2 counterexample: readdir of inode 2 does not fail with ENOTSUP; at a
concrete state with an empty cache it succeeds, emitting `.` and `..`. -/
theorem readdir_commits_not_enotsup :
    readdir env0 st0 INODE_COMMITS 0 10
        = .ok ([dotEntry INODE_COMMITS, dotdotEntry ROOT_ID], st0) ∧
      readdir env0 st0 INODE_COMMITS 0 10 ≠ .error (.raw ENOTSUP) := by
  refine ⟨rfl, ?_⟩
  intro h
  rw [show readdir env0 st0 INODE_COMMITS 0 10
      = .ok ([dotEntry INODE_COMMITS, dotdotEntry ROOT_ID], st0) from rfl] at h
  exact Except.noConfusion h

/-- C2 (amended): readdir on the `commits/` directory (inode 2) never
fails for any state, offset and capacity: it succeeds without touching the
state and enumerates `.`, `..`, and one directory record per commit node
materialized in the in-process cache, sorted by full-hex name, with the
engine's cursor semantics. -/
theorem readdir_commits_enumerates (env : Env) (st : St) (offset cap : Nat) :
    readdir env st INODE_COMMITS offset cap = .ok (readdir_commits st offset cap, st) ∧
    readdir_commits st offset cap
      = ((dirRecords INODE_COMMITS ROOT_ID
            ((commitListing st).map (fun p => (p.2, DT_DIR, p.1)))).filter
          (fun e => decide (offset < e.off))).take cap := by
  refine ⟨rfl, ?_⟩
  unfold readdir_commits
  exact listingGo_eq INODE_COMMITS ROOT_ID _ offset cap

/-- Witness for C9's amended theorem: absent names at the root, under
`branches/`, and under `commits/` at a concrete state. -/
theorem lookup_absent_names_witness :
    lookup env0 st0 ROOT_ID (strBytes "nope") = .error (.raw ENOENT) ∧
      lookup env0 st0 INODE_BRANCHES (strBytes "dev") = .error (.raw ENOENT) ∧
      lookup env0 st0 INODE_COMMITS (strBytes "zzz") = .error .other :=
  ⟨(lookup_absent_names env0 st0).1 (strBytes "nope")
      (by decide) (by decide) (by decide) (by decide),
   (lookup_absent_names env0 st0).2.1 (strBytes "dev") (by decide),
   (lookup_absent_names env0 st0).2.2.2.2.2 (strBytes "zzz") (by decide) rfl⟩

end GitSnapFs
